import Mathlib

/-!
# Prosody-Go-FilesUpload: the request handler of `main.go`

A shallow embedding of `handleRequest` (src/main.go) together with the pieces
of the Go standard library it calls, and the properties of the handler that
the specification states.

Conventions of the embedding

* A Go `string` is a Lean `String`; its bytes (`[]byte(s)`) are its UTF-8
  encoding, `bytes s`.  A byte is a `Nat` below 256, a byte slice a `List Nat`.
* `int64` values (`r.ContentLength`, sizes) are `Int`.
* The handler is a pure function of the configuration, the request, the
  filesystem before the call and the outcomes of the operating-system calls
  (`Env`); it returns the response, the filesystem afterwards, the lines
  written with `log.Println` / `fmt.Println` and the mutating filesystem calls
  it issued.
* The filesystem is a list of regular files with their content and a list of
  directories, both by name as the handler writes it; there are no symbolic
  links.  `os.MkdirAll` fails only if the directory is not there afterwards,
  `os.Create` needs the directory of the file, and any call may besides be
  refused by the system (`Env`).  `http.ServeFile` only reads; the response it
  writes is taken from `Env`.
* Log lines are kept without the timestamp that package `log` puts in front
  and without the final newline.
-/

set_option maxRecDepth 100000

namespace FilesUpload

/-! ## Strings and bytes -/

/-- UTF-8 encoding of one code point. -/
def utf8EncodeChar (c : Char) : List Nat :=
  let v := c.toNat
  if v < 128 then [v]
  else if v < 2048 then [192 + v / 64, 128 + v % 64]
  else if v < 65536 then [224 + v / 4096, 128 + v / 64 % 64, 128 + v % 64]
  else [240 + v / 262144, 128 + v / 4096 % 64, 128 + v / 64 % 64, 128 + v % 64]

/-- The conversion `[]byte(s)`: the bytes of a string. -/
def bytes (s : String) : List Nat :=
  s.data.flatMap utf8EncodeChar

/-! ## crypto/sha256 (FIPS 180-4), on 32-bit words held in `Nat` -/

namespace sha256

/-- Round constants. -/
def K : List Nat :=
  [0x428A2F98, 0x71374491, 0xB5C0FBCF, 0xE9B5DBA5, 0x3956C25B, 0x59F111F1, 0x923F82A4, 0xAB1C5ED5,
   0xD807AA98, 0x12835B01, 0x243185BE, 0x550C7DC3, 0x72BE5D74, 0x80DEB1FE, 0x9BDC06A7, 0xC19BF174,
   0xE49B69C1, 0xEFBE4786, 0x0FC19DC6, 0x240CA1CC, 0x2DE92C6F, 0x4A7484AA, 0x5CB0A9DC, 0x76F988DA,
   0x983E5152, 0xA831C66D, 0xB00327C8, 0xBF597FC7, 0xC6E00BF3, 0xD5A79147, 0x06CA6351, 0x14292967,
   0x27B70A85, 0x2E1B2138, 0x4D2C6DFC, 0x53380D13, 0x650A7354, 0x766A0ABB, 0x81C2C92E, 0x92722C85,
   0xA2BFE8A1, 0xA81A664B, 0xC24B8B70, 0xC76C51A3, 0xD192E819, 0xD6990624, 0xF40E3585, 0x106AA070,
   0x19A4C116, 0x1E376C08, 0x2748774C, 0x34B0BCB5, 0x391C0CB3, 0x4ED8AA4A, 0x5B9CCA4F, 0x682E6FF3,
   0x748F82EE, 0x78A5636F, 0x84C87814, 0x8CC70208, 0x90BEFFFA, 0xA4506CEB, 0xBEF9A3F7, 0xC67178F2]

/-- Initial hash value. -/
def init : List Nat :=
  [0x6A09E667, 0xBB67AE85, 0x3C6EF372, 0xA54FF53A, 0x510E527F, 0x9B05688C, 0x1F83D9AB, 0x5BE0CD19]

/-- Truncation to a `uint32`. -/
def w32 (x : Nat) : Nat := x % 2 ^ 32

/-- Rotation of a 32-bit word to the right. -/
def rotateRight (x n : Nat) : Nat := w32 ((x >>> n) ||| (x <<< (32 - n)))

/-- Bitwise complement of a 32-bit word. -/
def complement (x : Nat) : Nat := (2 ^ 32 - 1) - x

/-- The function Ch of FIPS 180-4: `e` chooses between `f` and `g`. -/
def ch (e f g : Nat) : Nat :=
  (e &&& f) ^^^ (complement e &&& g)

/-- The function Maj of FIPS 180-4: the majority of the three bits. -/
def maj (a b c : Nat) : Nat :=
  (a &&& b) ^^^ (a &&& c) ^^^ (b &&& c)

/-- The function of the working variable `a` in a round. -/
def bigSigma0 (a : Nat) : Nat :=
  rotateRight a 2 ^^^ rotateRight a 13 ^^^ rotateRight a 22

/-- The function of the working variable `e` in a round. -/
def bigSigma1 (e : Nat) : Nat :=
  rotateRight e 6 ^^^ rotateRight e 11 ^^^ rotateRight e 25

/-- The first function of the message schedule. -/
def smallSigma0 (v : Nat) : Nat :=
  rotateRight v 7 ^^^ rotateRight v 18 ^^^ (v >>> 3)

/-- The second function of the message schedule. -/
def smallSigma1 (v : Nat) : Nat :=
  rotateRight v 17 ^^^ rotateRight v 19 ^^^ (v >>> 10)

/-- Big-endian 32-bit words of a byte sequence. -/
def beWords : List Nat → List Nat
  | a :: b :: c :: d :: rest => (a * 16777216 + b * 65536 + c * 256 + d) :: beWords rest
  | _ => []

/-- Message schedule extension; `w` holds the words so far, the latest first. -/
def extend : Nat → List Nat → List Nat
  | 0, w => w
  | n + 1, w =>
    extend n (w32 (smallSigma1 (w.getD 1 0) + w.getD 6 0 + smallSigma0 (w.getD 14 0) + w.getD 15 0) :: w)

/-- The 64 schedule words of one 64-byte block. -/
def schedule (block : List Nat) : List Nat :=
  (extend 48 (beWords block).reverse).reverse

/-- One round of the compression function on the working variables a..h. -/
def round (s : List Nat) (kw : Nat × Nat) : List Nat :=
  match s with
  | [a, b, c, d, e, f, g, h] =>
    let t1 := h + bigSigma1 e + ch e f g + kw.1 + kw.2
    let t2 := bigSigma0 a + maj a b c
    [w32 (t1 + t2), a, b, c, w32 (d + t1), e, f, g]
  | _ => s

/-- Compression of one block into the running hash value. -/
def compress (h : List Nat) (block : List Nat) : List Nat :=
  List.zipWith (fun x y => w32 (x + y)) h ((K.zip (schedule block)).foldl round h)

/-- The first `n` 64-byte blocks of a byte sequence. -/
def blocks : Nat → List Nat → List (List Nat)
  | 0, _ => []
  | n + 1, bs => bs.take 64 :: blocks n (bs.drop 64)

/-- Big-endian encoding of `x` in `k` bytes. -/
def be (k : Nat) (x : Nat) : List Nat :=
  (List.range k).reverse.map fun i => (x >>> (8 * i)) % 256

/-- Padding: 0x80, zeros, and the bit length in 8 bytes, to a multiple of 64 bytes. -/
def pad (msg : List Nat) : List Nat :=
  msg ++ [128] ++ List.replicate ((64 - (msg.length + 9) % 64) % 64) 0 ++ be 8 (8 * msg.length)

/-- The SHA-256 digest (32 bytes) of a byte sequence. -/
def Sum256 (msg : List Nat) : List Nat :=
  ((blocks ((pad msg).length / 64) (pad msg)).foldl compress init).flatMap (be 4)

/-- Block size of SHA-256 in bytes. -/
def BlockSize : Nat := 64

end sha256

/-! ## crypto/hmac -/

/-- State of the value returned by `hmac.New(sha256.New, key)`: the two pads
and the bytes written to the inner hash so far. -/
structure HMAC where
  opad : List Nat
  ipad : List Nat
  inner : List Nat
deriving DecidableEq, Repr

namespace hmac

/-- Go `hmac.New(sha256.New, key)`: a key longer than the block size is hashed
first; the key is zero-padded to the block size, xored with 0x36 (ipad) and
0x5c (opad), and ipad is written to the inner hash. -/
def New (key : List Nat) : HMAC :=
  let key := if key.length > sha256.BlockSize then sha256.Sum256 key else key
  let padded := key ++ List.replicate (sha256.BlockSize - key.length) 0
  let ipad := padded.map (· ^^^ 0x36)
  let opad := padded.map (· ^^^ 0x5c)
  { opad := opad, ipad := ipad, inner := ipad }

/-- Go `mac.Write(p)`: the bytes go to the inner hash. -/
def Write (h : HMAC) (p : List Nat) : HMAC :=
  { h with inner := h.inner ++ p }

/-- Go `mac.Sum(nil)`: the outer hash of opad followed by the inner digest. -/
def Sum (h : HMAC) : List Nat :=
  sha256.Sum256 (h.opad ++ sha256.Sum256 h.inner)

/-- Go `subtle.ConstantTimeCompare` as a loop: the or of the xors of the bytes. -/
def orXor : List Nat → List Nat → Nat → Nat
  | x :: xs, y :: ys, v => orXor xs ys (v ||| (x ^^^ y))
  | _, _, v => v

/-- Go `hmac.Equal(mac1, mac2)`: equal lengths and no differing byte. -/
def Equal (mac1 mac2 : List Nat) : Bool :=
  if mac1.length ≠ mac2.length then false else orXor mac1 mac2 0 == 0

end hmac

/-! ## encoding/hex -/

namespace hex

/-- The table of `encoding/hex`. -/
def hextable : List Char := "0123456789abcdef".data

/-- Go `hex.EncodeToString(src)`: two table entries a byte, `v>>4` and `v&0x0f`. -/
def EncodeToString (src : List Nat) : String :=
  ⟨src.flatMap fun v => [hextable.getD (v >>> 4) '0', hextable.getD (v &&& 0x0f) '0']⟩

end hex

/-! ## strconv and strings -/

namespace strconv

/-- Decimal digits of an unsigned value, most significant first (the digit loop
of `formatBits`); `fuel` bounds the number of digits. -/
def formatBits : Nat → Nat → List Char
  | 0, _ => []
  | fuel + 1, u =>
    if u < 10 then [Char.ofNat (48 + u)]
    else formatBits fuel (u / 10) ++ [Char.ofNat (48 + u % 10)]

/-- Go `strconv.FormatInt(i, 10)`: a minus sign for a negative value, then the
decimal digits of its magnitude (`formatBits` negates in `uint64`, which is the
magnitude for every `int64`, the least one included). -/
def FormatInt (i : Int) : String :=
  if i < 0 then ⟨'-' :: formatBits (i.natAbs + 1) i.natAbs⟩
  else ⟨formatBits (i.natAbs + 1) i.natAbs⟩

end strconv

namespace strings

/-- Go `strings.TrimLeft(s, cutset)`: `s` without the leading code points that
occur in `cutset` (a set of characters, not a prefix). -/
def TrimLeft (s cutset : String) : String :=
  ⟨s.data.dropWhile fun c => decide (c ∈ cutset.data)⟩

end strings

/-! ## path/filepath (Unix) -/

namespace filepath

/-- The components of a path between its slashes. -/
def components : List Char → List (List Char)
  | [] => [[]]
  | c :: cs =>
    match components cs with
    | [] => [[]]
    | comp :: rest => if c = '/' then [] :: comp :: rest else (c :: comp) :: rest

/-- One step of `Clean`: `stack` holds the kept components, the last one first. -/
def cleanStep (rooted : Bool) (stack : List (List Char)) (c : List Char) : List (List Char) :=
  if c = [] ∨ c = ['.'] then stack
  else if c = ['.', '.'] then
    match stack with
    | top :: rest => if top = ['.', '.'] then c :: stack else rest
    | [] => if rooted then [] else [c]
  else c :: stack

/-- Go `filepath.Clean`: the shortest equivalent path by lexical processing
(no empty and no `.` component, `..` removes the component before it, no `..`
right after the root, `.` for the empty result). -/
def Clean (path : String) : String :=
  if path = "" then "."
  else
    let rooted := path.data.head? = some '/'
    let kept := ((components path.data).foldl (cleanStep rooted) []).reverse
    let out := (if rooted then "/" else "") ++ "/".intercalate (kept.map String.mk)
    if out = "" then "." else out

/-- Go `filepath.Dir`: everything up to the last slash, cleaned. -/
def Dir (path : String) : String :=
  Clean ⟨(path.data.reverse.dropWhile fun c => decide (c ≠ '/')).reverse⟩

end filepath

/-! ## Data model -/

/-- Configuration of the server (`type Config struct`). -/
structure Config where
  Listenport : String
  Secret : String
  Storedir : String
  UploadSubDir : String
deriving DecidableEq, Repr

/-- What `handleRequest` reads of `*http.Request`.  `URL` is `r.URL.String()`,
`Path` the `Path` of that string parsed again with `url.Parse` (which succeeds on
the URL of a request the server has accepted), `Query` the key/value pairs of its
raw query in the order `url.ParseQuery` collects them, `QueryErr` the error
`url.ParseQuery` reports, `ContentLength` the declared length (-1 when unknown, as
with chunked transfer encoding), `Body` the bytes the body reader delivers. -/
structure Request where
  Method : String
  URL : String
  Path : String
  Query : List (String × String)
  QueryErr : Option String
  ContentLength : Int
  Body : List Nat
deriving DecidableEq, Repr

/-- Go `url.Values` indexing `a[key]`: the values collected for `key`, in order;
the empty list stands for `nil` (no such parameter). -/
def Values (a : List (String × String)) (key : String) : List String :=
  (a.filter fun kv => decide (kv.1 = key)).map Prod.snd

/-- What the handler writes to its `http.ResponseWriter`. -/
structure Response where
  Code : Nat
  Header : List (String × String)
  Body : List Nat
deriving DecidableEq, Repr

/-- The response before the handler has written anything: status 200, no
header, empty body. -/
def newResponse : Response :=
  { Code := 200, Header := [], Body := [] }

/-- Go `w.Header().Set(key, value)`. -/
def Response.Set (w : Response) (key value : String) : Response :=
  { w with Header := (key, value) :: w.Header.filter fun kv => decide (kv.1 ≠ key) }

/-- Go `w.Header().Get(key)`. -/
def Response.Get (w : Response) (key : String) : Option String :=
  (w.Header.find? fun kv => decide (kv.1 = key)).map Prod.snd

/-- Go `http.Error(w, error, code)`: plain-text headers, the status code, and
the message followed by a newline as body. -/
def Response.Error (w : Response) (error : String) (code : Nat) : Response :=
  let w := (w.Set "Content-Type" "text/plain; charset=utf-8").Set "X-Content-Type-Options" "nosniff"
  { w with Code := code, Body := w.Body ++ bytes (error ++ "\n") }

/-- The filesystem: regular files with their content, and directories, by name. -/
structure FS where
  files : List (String × List Nat)
  dirs : List String
deriving DecidableEq, Repr

/-- Content of the regular file `name`, if there is one. -/
def FS.read (fs : FS) (name : String) : Option (List Nat) :=
  (fs.files.find? fun f => decide (f.1 = name)).map Prod.snd

/-- The filesystem with `data` as the whole content of the file `name`. -/
def FS.put (fs : FS) (name : String) (data : List Nat) : FS :=
  { fs with files := (name, data) :: fs.files.filter fun f => decide (f.1 ≠ name) }

/-- Outcomes of the operating-system calls that the content of the filesystem does not
determine: the error, if any, with which the system refuses `os.MkdirAll`, `os.Create`,
`io.Copy` (with the number of bytes that reached the file before it) and `os.Stat` (permissions,
a full disk, a closed connection); the size `os.Stat` reports for a directory; and the
response `http.ServeFile` writes. -/
structure Env where
  mkdirAllErr : Option String
  createErr : Option String
  copyErr : Option (Nat × String)
  statErr : Option String
  dirSize : Int
  served : Response
deriving DecidableEq, Repr

namespace os

/-- Go `os.MkdirAll(path, os.ModePerm)`: no error and nothing to do when `path` is a directory
already; otherwise the directory is made, unless the system refuses, and then it is not
there afterwards.  Returns the filesystem afterwards and the error. -/
def MkdirAll (env : Env) (fs : FS) (path : String) : FS × Option String :=
  if path ∈ fs.dirs then (fs, none)
  else
    match env.mkdirAllErr with
    | some err => (fs, some err)
    | none => ({ fs with dirs := path :: fs.dirs }, none)

/-- Go `os.Create(name)`: an error when the directory of `name` does not exist (there are no
symbolic links: the directory of a file is `filepath.Dir` of its name) or when the system
refuses; otherwise the file exists afterwards and is empty.  Returns the filesystem
afterwards and the error. -/
def Create (env : Env) (fs : FS) (name : String) : FS × Option String :=
  if filepath.Dir name ∈ fs.dirs then
    match env.createErr with
    | some err => (fs, some err)
    | none => (fs.put name [], none)
  else (fs, some ("open " ++ name ++ ": no such file or directory"))

/-- Go `io.Copy(file, r.Body)` into the file just created: the number of bytes written, or
the error, after which the bytes copied so far stay in the file. -/
def Copy (env : Env) (fs : FS) (name : String) (body : List Nat) : FS × Except String Int :=
  match env.copyErr with
  | some (k, err) => (fs.put name (body.take k), .error err)
  | none => (fs.put name body, .ok body.length)

/-- Go `os.Stat(name)` followed by `Size()`: the length of a regular file. -/
def Stat (env : Env) (fs : FS) (name : String) : Except String Int :=
  match env.statErr with
  | some err => .error err
  | none =>
    match fs.read name with
    | some data => .ok data.length
    | none =>
      if name ∈ fs.dirs then .ok env.dirSize
      else .error ("stat " ++ name ++ ": no such file or directory")

end os

/-- The mutating filesystem operations the handler uses. -/
inductive Op where
  | mkdirAll
  | create
  | copy
deriving DecidableEq, Repr

/-- A mutating filesystem call issued by the handler: the operation, the path it
is applied to, and the error it returned, if any. -/
structure Call where
  op : Op
  name : String
  err : Option String
deriving DecidableEq, Repr

/-- Everything observable of one run of the handler. -/
structure Outcome where
  resp : Response
  fs : FS
  log : List String
  stdout : List String
  calls : List Call
deriving DecidableEq, Repr

/-- Go `log.Println`: one more line in the log. -/
def Outcome.logln (o : Outcome) (line : String) : Outcome :=
  { o with log := o.log ++ [line] }

/-- Go `fmt.Println`: one more line on standard output. -/
def Outcome.println (o : Outcome) (line : String) : Outcome :=
  { o with stdout := o.stdout ++ [line] }

/-- Go `http.Error(w, error, code)` on the response of the run. -/
def Outcome.Error (o : Outcome) (error : String) (code : Nat) : Outcome :=
  { o with resp := o.resp.Error error code }

/-- The error of an `io.Copy`, if any. -/
def copyError (res : Except String Int) : Option String :=
  match res with
  | .error err => some err
  | .ok _ => none

/-- The call `os.MkdirAll(path, os.ModePerm)` in a run, and its error. -/
def Outcome.MkdirAll (o : Outcome) (env : Env) (path : String) : Outcome × Option String :=
  ({ o with fs := (os.MkdirAll env o.fs path).1,
            calls := o.calls ++ [⟨Op.mkdirAll, path, (os.MkdirAll env o.fs path).2⟩] },
    (os.MkdirAll env o.fs path).2)

/-- The call `os.Create(name)` in a run, and its error. -/
def Outcome.Create (o : Outcome) (env : Env) (name : String) : Outcome × Option String :=
  ({ o with fs := (os.Create env o.fs name).1,
            calls := o.calls ++ [⟨Op.create, name, (os.Create env o.fs name).2⟩] },
    (os.Create env o.fs name).2)

/-- The call `io.Copy(file, r.Body)` in a run, and its result. -/
def Outcome.Copy (o : Outcome) (env : Env) (name : String) (body : List Nat) :
    Outcome × Except String Int :=
  ({ o with fs := (os.Copy env o.fs name body).1,
            calls := o.calls ++ [⟨Op.copy, name, copyError (os.Copy env o.fs name body).2⟩] },
    (os.Copy env o.fs name body).2)

/-! ## The request handler -/

/-- Lines 72, 76 and 77 of `handleRequest`: the MAC the handler wants, the hex
string of the HMAC-SHA256 under the secret of the path, a blank and the content
length. -/
def macString (conf : Config) (fileStorePath : String) (ContentLength : Int) : String :=
  let mac := hmac.New (bytes conf.Secret)
  let mac := hmac.Write mac (bytes (fileStorePath ++ " " ++ strconv.FormatInt ContentLength))
  hex.EncodeToString (hmac.Sum mac)

/-- Line 57 of `handleRequest`: the path of the file below the storage directory. -/
def fileStorePath (conf : Config) (r : Request) : String :=
  strings.TrimLeft r.Path conf.UploadSubDir

/-- The request handler `handleRequest(w, r)` of `main.go`, on the global `conf`. -/
def handleRequest (conf : Config) (env : Env) (fs : FS) (r : Request) : Outcome :=
  let o : Outcome := { resp := newResponse, fs := fs, log := [], stdout := [], calls := [] }
  let o := o.logln ("Incoming request: " ++ r.Method ++ " " ++ r.URL)
  let o := match r.QueryErr with
    | some err => o.logln ("Failed to parse URL query params: " ++ err)
    | none => o
  let a := Values r.Query
  let fileStorePath := fileStorePath conf r
  if r.Method = "PUT" then
    match a "v" with
    | [] => (o.logln "Error: No HMAC attached to URL.").Error "409 Conflict" 409
    | v :: _ =>
      let o := o.println ("MAC sent:  " ++ v)
      let o := o.logln ("Secret: " ++ conf.Secret)
      let o := o.logln ("fileStorePath: " ++ fileStorePath)
      let o := o.logln ("ContentLength: " ++ strconv.FormatInt r.ContentLength)
      let macString := macString conf fileStorePath r.ContentLength
      let o := o.logln ("MAC wanted: " ++ macString)
      if hmac.Equal (bytes macString) (bytes v) then
        let o := (o.MkdirAll env (filepath.Dir (conf.Storedir ++ fileStorePath))).1
        match o.Create env (conf.Storedir ++ fileStorePath) with
        | (o, some err) => (o.logln ("Creating new file failed: " ++ err)).Error "409 Conflict" 409
        | (o, none) =>
          match o.Copy env (conf.Storedir ++ fileStorePath) r.Body with
          | (o, .error err) =>
            (o.logln ("Writing to new file failed: " ++ err)).Error "409 Conflict" 409
          | (o, .ok n) =>
            o.logln ("Successfully written " ++ strconv.FormatInt n ++ " bytes to file "
              ++ fileStorePath)
      else (o.logln "Invalid MAC.").Error "403 Forbidden" 403
  else if r.Method = "HEAD" then
    match os.Stat env fs (conf.Storedir ++ fileStorePath) with
    | .error err => (o.logln ("Getting file information failed: " ++ err)).Error "404 Not Found" 404
    | .ok size => { o with resp := o.resp.Set "Content-Length" (strconv.FormatInt size) }
  else if r.Method = "GET" then
    { o with resp := env.served }
  else
    (o.logln ("Invalid method " ++ r.Method ++ " for access to  " ++ conf.UploadSubDir)).Error
      "405 Method Not Allowed" 405

/-! ## The signature as the specification words it -/

/-- Spec: HMAC (RFC 2104) with SHA-256 as hash, `H((K0 xor opad) ++ H((K0 xor ipad) ++ text))`,
where `K0` is the key, hashed first when longer than the 64-byte block, filled
up with zeros to 64 bytes, `ipad` is the byte 0x36 and `opad` the byte 0x5c. -/
def specHMACSHA256 (key text : List Nat) : List Nat :=
  let k := if 64 < key.length then sha256.Sum256 key else key
  let k0 := k ++ List.replicate (64 - k.length) 0
  sha256.Sum256 (k0.map (fun b => b ^^^ 92) ++ sha256.Sum256 (k0.map (fun b => b ^^^ 54) ++ text))

/-- Spec: lowercase hex encoding, two digits a byte, the high one first. -/
def specHexLower (src : List Nat) : String :=
  ⟨src.flatMap fun b => [Nat.digitChar (b / 16), Nat.digitChar (b % 16)]⟩

/-- Spec: `hex(HMAC_SHA256(secret, relpath + " " + decimal_string(content_length)))`,
the secret and the message as raw bytes, the length as its usual decimal numeral. -/
def specSignature (secret relpath : String) (contentLength : Int) : String :=
  specHexLower (specHMACSHA256 (bytes secret) (bytes (relpath ++ " " ++ toString contentLength)))

/-- Value of a string of decimal digits (used to read back `formatBits`). -/
def decodeDigits (l : List Char) : Nat :=
  l.foldl (fun a c => a * 10 + (c.toNat - 48)) 0

/-! ## Concrete requests -/

/-- The configuration of the scenario in the specification. -/
def exampleConf : Config :=
  { Listenport := ":5050", Secret := "s3cr3t", Storedir := "/data/", UploadSubDir := "upload/" }

/-- An environment in which every operating-system call succeeds. -/
def quietEnv : Env :=
  { mkdirAllErr := none, createErr := none, copyErr := none, statErr := none, dirSize := 4096,
    served := newResponse }

/-- An environment in which only `os.MkdirAll` reports an error. -/
def mkdirFailEnv : Env :=
  { quietEnv with mkdirAllErr := some "mkdir /data/thomas: permission denied" }

/-- An environment in which `os.Create` reports an error. -/
def createFailEnv : Env :=
  { quietEnv with createErr := some "open /data/thomas/abc/catmetal.jpg: permission denied" }

/-- The empty filesystem. -/
def emptyFS : FS :=
  { files := [], dirs := [] }

/-- A filesystem that already holds a file at the upload target. -/
def usedFS : FS :=
  { files := [("/data/thomas/abc/catmetal.jpg", [9, 9, 9, 9, 9])], dirs := ["/data/thomas/abc"] }

/-- A PUT of three bytes with the signature for `thomas/abc/catmetal.jpg 3`. -/
def signedPut : Request :=
  { Method := "PUT",
    URL := "/upload/thomas/abc/catmetal.jpg?v=bdfc1ba5aa91541a2858d9532818c6a338a78cdb9a9a9d7f1271c08e12402935",
    Path := "/upload/thomas/abc/catmetal.jpg",
    Query := [("v", "bdfc1ba5aa91541a2858d9532818c6a338a78cdb9a9a9d7f1271c08e12402935")],
    QueryErr := none, ContentLength := 3, Body := [1, 2, 3] }

/-- A PUT of three bytes sent with chunked transfer encoding, so that the
declared length is -1 (unknown), with the signature for `thomas/abc/catmetal.jpg -1`. -/
def chunkedPut : Request :=
  { Method := "PUT",
    URL := "/upload/thomas/abc/catmetal.jpg?v=f1513ae617734f04cb30109cdcf990e3a082c958fd7d7d33646439a7bea006e0",
    Path := "/upload/thomas/abc/catmetal.jpg",
    Query := [("v", "f1513ae617734f04cb30109cdcf990e3a082c958fd7d7d33646439a7bea006e0")],
    QueryErr := none, ContentLength := -1, Body := [1, 2, 3] }

/-- A PUT without a signature (`TestUploadMissingMAC`). -/
def unsignedPut : Request :=
  { Method := "PUT", URL := "/upload/thomas/abc/catmetal.jpg",
    Path := "/upload/thomas/abc/catmetal.jpg", Query := [], QueryErr := none,
    ContentLength := 3, Body := [1, 2, 3] }

/-- A PUT with the signature `abc` (`TestUploadInvalidMAC`). -/
def wrongPut : Request :=
  { Method := "PUT", URL := "/upload/thomas/abc/catmetal.jpg?v=abc",
    Path := "/upload/thomas/abc/catmetal.jpg", Query := [("v", "abc")], QueryErr := none,
    ContentLength := 3, Body := [1, 2, 3] }

/-- A HEAD request for the upload target (`TestDownloadHead`). -/
def headRequest : Request :=
  { Method := "HEAD", URL := "/upload/thomas/abc/catmetal.jpg",
    Path := "/upload/thomas/abc/catmetal.jpg", Query := [], QueryErr := none,
    ContentLength := 0, Body := [] }

/-- A POST request (`TestUploadInvalidMethod`). -/
def postRequest : Request :=
  { Method := "POST", URL := "/upload/thomas/abc/catmetal.jpg",
    Path := "/upload/thomas/abc/catmetal.jpg", Query := [], QueryErr := none,
    ContentLength := 3, Body := [1, 2, 3] }

/-- A HEAD request below the upload prefix for a user whose name starts with
letters of the prefix. -/
def aliceRequest : Request :=
  { Method := "HEAD", URL := "/upload/alice/x.jpg", Path := "/upload/alice/x.jpg", Query := [],
    QueryErr := none, ContentLength := 0, Body := [] }

/-! ## Lemmas: bytes, comparison, decimal numerals, hex -/

theorem utf8EncodeChar_ne_nil (c : Char) : utf8EncodeChar c ≠ [] := by
  unfold utf8EncodeChar
  simp only []
  split_ifs <;> simp

theorem utf8EncodeChar_append_inj (c d : Char) (r s : List Nat)
    (h : utf8EncodeChar c ++ r = utf8EncodeChar d ++ s) : c = d ∧ r = s := by
  have key : c.toNat = d.toNat ∧ r = s := by
    unfold utf8EncodeChar at h
    simp only [] at h
    split_ifs at h <;>
      simp only [List.cons_append, List.nil_append, List.cons.injEq] at h <;>
      first
      | (exfalso; omega)
      | (refine ⟨?_, ?_⟩
         · omega
         · simp only [h])
  refine ⟨?_, key.2⟩
  rw [← Char.ofNat_toNat c, ← Char.ofNat_toNat d, key.1]

theorem flatMap_utf8_inj : ∀ l m : List Char,
    l.flatMap utf8EncodeChar = m.flatMap utf8EncodeChar → l = m
  | [], [] => fun _ => rfl
  | [], d :: m => fun h => by
    exfalso
    simp only [List.flatMap_nil, List.flatMap_cons] at h
    have := utf8EncodeChar_ne_nil d
    cases hd : utf8EncodeChar d with
    | nil => exact this hd
    | cons x xs => rw [hd] at h; simp at h
  | c :: l, [] => fun h => by
    exfalso
    simp only [List.flatMap_nil, List.flatMap_cons] at h
    have := utf8EncodeChar_ne_nil c
    cases hd : utf8EncodeChar c with
    | nil => exact this hd
    | cons x xs => rw [hd] at h; simp at h
  | c :: l, d :: m => fun h => by
    simp only [List.flatMap_cons] at h
    obtain ⟨h1, h2⟩ := utf8EncodeChar_append_inj c d _ _ h
    rw [h1, flatMap_utf8_inj l m h2]

theorem bytes_inj {s t : String} (h : bytes s = bytes t) : s = t := by
  cases s; cases t
  simp only [bytes] at h
  rw [flatMap_utf8_inj _ _ h]

theorem lor_eq_zero {a b : Nat} (h : a ||| b = 0) : a = 0 ∧ b = 0 := by
  constructor
  · apply Nat.eq_of_testBit_eq
    intro i
    have := congrArg (fun n => Nat.testBit n i) h
    simp only [Nat.testBit_or, Nat.zero_testBit, Bool.or_eq_false_iff] at this
    simp [this.1]
  · apply Nat.eq_of_testBit_eq
    intro i
    have := congrArg (fun n => Nat.testBit n i) h
    simp only [Nat.testBit_or, Nat.zero_testBit, Bool.or_eq_false_iff] at this
    simp [this.2]

theorem orXor_eq_zero : ∀ (xs ys : List Nat) (v : Nat), xs.length = ys.length →
    (hmac.orXor xs ys v = 0 ↔ v = 0 ∧ xs = ys)
  | [], [], v => fun _ => by simp [hmac.orXor]
  | [], _ :: _, _ => fun h => by simp at h
  | _ :: _, [], _ => fun h => by simp at h
  | x :: xs, y :: ys, v => fun h => by
    have hl : xs.length = ys.length := by simpa using h
    rw [hmac.orXor, orXor_eq_zero xs ys _ hl]
    constructor
    · rintro ⟨h1, h2⟩
      obtain ⟨hv, hx⟩ := lor_eq_zero h1
      exact ⟨hv, by rw [Nat.xor_eq_zero.mp hx, h2]⟩
    · rintro ⟨hv, hxy⟩
      simp only [List.cons.injEq] at hxy
      refine ⟨?_, hxy.2⟩
      rw [hv, hxy.1]
      simp

theorem Equal_iff (a b : List Nat) : hmac.Equal a b = true ↔ a = b := by
  unfold hmac.Equal
  by_cases hl : a.length = b.length
  · simp [hl, orXor_eq_zero a b 0 hl]
  · simp only [ne_eq, hl, not_false_eq_true, ↓reduceIte, Bool.false_eq_true, false_iff]
    intro h
    exact hl (by rw [h])

theorem Equal_bytes_iff (s t : String) : hmac.Equal (bytes s) (bytes t) = true ↔ s = t := by
  rw [Equal_iff]
  exact ⟨bytes_inj, fun h => by rw [h]⟩


/-! ### Decimal rendering -/

theorem ofNat_digit_toNat (d : Nat) (h : d < 10) : (Char.ofNat (48 + d)).toNat = 48 + d := by
  interval_cases d <;> rfl

theorem formatBits_digit : ∀ (fuel u : Nat) (c : Char), c ∈ strconv.formatBits fuel u →
    ∃ d, d < 10 ∧ c = Char.ofNat (48 + d)
  | 0, _, c => fun h => by simp [strconv.formatBits] at h
  | fuel + 1, u, c => fun h => by
    unfold strconv.formatBits at h
    split_ifs at h with hu
    · exact ⟨u, hu, by simpa using h⟩
    · rcases List.mem_append.mp h with h | h
      · exact formatBits_digit fuel (u / 10) c h
      · exact ⟨u % 10, Nat.mod_lt _ (by decide), by simpa using h⟩

theorem decodeDigits_formatBits : ∀ (fuel u : Nat), u < fuel → decodeDigits (strconv.formatBits fuel u) = u
  | 0, _ => fun h => by omega
  | fuel + 1, u => fun h => by
    unfold strconv.formatBits
    split_ifs with hu
    · simp [decodeDigits, ofNat_digit_toNat u hu]
    · have ih := decodeDigits_formatBits fuel (u / 10) (by omega)
      unfold decodeDigits at ih ⊢
      rw [List.foldl_append, ih]
      simp only [List.foldl_cons, List.foldl_nil]
      rw [ofNat_digit_toNat _ (Nat.mod_lt _ (by decide))]
      omega

theorem formatBits_ne_minus (fuel u : Nat) : '-' ∉ strconv.formatBits fuel u := by
  intro h
  obtain ⟨d, hd, hc⟩ := formatBits_digit fuel u _ h
  interval_cases d <;> revert hc <;> decide

theorem formatBits_ne_space (fuel u : Nat) : ' ' ∉ strconv.formatBits fuel u := by
  intro h
  obtain ⟨d, hd, hc⟩ := formatBits_digit fuel u _ h
  interval_cases d <;> revert hc <;> decide

theorem FormatInt_no_space (i : Int) : ' ' ∉ (strconv.FormatInt i).data := by
  unfold strconv.FormatInt
  split_ifs
  · simp only [List.mem_cons, not_or]
    exact ⟨by decide, formatBits_ne_space _ _⟩
  · exact formatBits_ne_space _ _

theorem FormatInt_inj {i j : Int} (h : strconv.FormatInt i = strconv.FormatInt j) : i = j := by
  unfold strconv.FormatInt at h
  split_ifs at h with hi hj hj
  · have h := congrArg String.data h
    simp only [List.cons.injEq, true_and] at h
    have := congrArg decodeDigits h
    rw [decodeDigits_formatBits _ _ (Nat.lt_succ_self _), decodeDigits_formatBits _ _ (Nat.lt_succ_self _)] at this
    omega
  · exfalso
    have h := congrArg String.data h
    simp only at h
    have hm : '-' ∈ strconv.formatBits (j.natAbs + 1) j.natAbs := by rw [← h]; simp
    exact formatBits_ne_minus _ _ hm
  · exfalso
    have h := congrArg String.data h
    simp only at h
    have hm : '-' ∈ strconv.formatBits (i.natAbs + 1) i.natAbs := by rw [h]; simp
    exact formatBits_ne_minus _ _ hm
  · have h := congrArg String.data h
    simp only at h
    have := congrArg decodeDigits h
    rw [decodeDigits_formatBits _ _ (Nat.lt_succ_self _), decodeDigits_formatBits _ _ (Nat.lt_succ_self _)] at this
    omega

theorem split_at_last_space : ∀ (a b d e : List Char), ' ' ∉ d → ' ' ∉ e →
    a ++ ' ' :: d = b ++ ' ' :: e → a = b ∧ d = e
  | [], [], d, e => fun _ _ h => by simpa using h
  | [], y :: b, d, e => fun hd _ h => by
    exfalso
    simp only [List.nil_append, List.cons_append, List.cons.injEq] at h
    exact hd (by rw [h.2]; simp)
  | x :: a, [], d, e => fun _ he h => by
    exfalso
    simp only [List.nil_append, List.cons_append, List.cons.injEq] at h
    exact he (by rw [← h.2]; simp)
  | x :: a, y :: b, d, e => fun hd he h => by
    simp only [List.cons_append, List.cons.injEq] at h
    obtain ⟨h1, h2⟩ := split_at_last_space a b d e hd he h.2
    exact ⟨by rw [h.1, h1], h2⟩

theorem message_data (p : String) (n : Int) :
    (p ++ " " ++ strconv.FormatInt n).data = p.data ++ ' ' :: (strconv.FormatInt n).data := by
  simp [String.data_append]

theorem digitChar_eq (d : Nat) (h : d < 10) : Nat.digitChar d = Char.ofNat (48 + d) := by
  interval_cases d <;> rfl

theorem formatBits_toDigitsCore : ∀ (fuel u : Nat) (ds : List Char),
    strconv.formatBits fuel u ++ ds = Nat.toDigitsCore 10 fuel u ds
  | 0, _, _ => by simp [strconv.formatBits, Nat.toDigitsCore]
  | fuel + 1, u, ds => by
    unfold strconv.formatBits Nat.toDigitsCore
    by_cases hu : u < 10
    · have h0 : u / 10 = 0 := by omega
      have h1 : u % 10 = u := by omega
      simp [hu, h0, h1, digitChar_eq u hu]
    · have h0 : u / 10 ≠ 0 := by omega
      simp only [hu, h0, ↓reduceIte, List.append_assoc, List.singleton_append]
      rw [formatBits_toDigitsCore fuel (u / 10), digitChar_eq _ (Nat.mod_lt _ (by decide))]

theorem FormatInt_eq_toString (i : Int) : strconv.FormatInt i = toString i := by
  unfold strconv.FormatInt
  cases i with
  | ofNat m =>
    have h := formatBits_toDigitsCore (m + 1) m []
    simp only [List.append_nil] at h
    have hn : ¬ (Int.ofNat m < 0) := by simp
    rw [if_neg hn]
    show String.mk (strconv.formatBits (m + 1) m) = Nat.repr m
    rw [h]
    rfl
  | negSucc m =>
    have h := formatBits_toDigitsCore (m + 1 + 1) (m + 1) []
    simp only [List.append_nil] at h
    have hn : Int.negSucc m < 0 := Int.negSucc_lt_zero m
    rw [if_pos hn]
    show String.mk ('-' :: strconv.formatBits (m + 1 + 1) (m + 1)) = "-" ++ Nat.repr (m + 1)
    rw [h]
    rfl


theorem be_lt (k x b : Nat) (h : b ∈ sha256.be k x) : b < 256 := by
  unfold sha256.be at h
  obtain ⟨i, -, rfl⟩ := List.mem_map.mp h
  exact Nat.mod_lt _ (by decide)

theorem Sum256_lt (msg : List Nat) (b : Nat) (h : b ∈ sha256.Sum256 msg) : b < 256 := by
  unfold sha256.Sum256 at h
  obtain ⟨a, -, ha⟩ := List.mem_flatMap.mp h
  exact be_lt 4 a b ha

theorem hextable_digit : ∀ b, b < 256 →
    hex.hextable.getD (b >>> 4) '0' = Nat.digitChar (b / 16) ∧
    hex.hextable.getD (b &&& 0x0f) '0' = Nat.digitChar (b % 16) := by
  decide

theorem EncodeToString_eq : ∀ (src : List Nat), (∀ b ∈ src, b < 256) →
    hex.EncodeToString src = specHexLower src
  | [] => fun _ => rfl
  | b :: src => fun h => by
    have ih := EncodeToString_eq src (fun x hx => h x (List.mem_cons_of_mem _ hx))
    have hb := hextable_digit b (h b (List.mem_cons_self _ _))
    unfold hex.EncodeToString specHexLower at ih ⊢
    have ih := congrArg String.data ih
    simp only at ih
    simp only [List.flatMap_cons, hb.1, hb.2, ih]

theorem hmac_eq (key text : List Nat) :
    hmac.Sum (hmac.Write (hmac.New key) text) = specHMACSHA256 key text := by
  simp only [hmac.Sum, hmac.Write, hmac.New, specHMACSHA256, sha256.BlockSize, gt_iff_lt]

theorem macString_eq (conf : Config) (p : String) (n : Int) :
    macString conf p n = specSignature conf.Secret p n := by
  unfold macString specSignature
  rw [FormatInt_eq_toString]
  simp only [hmac_eq]
  apply EncodeToString_eq
  intro b hb
  unfold specHMACSHA256 at hb
  exact Sum256_lt _ b hb


/-! ### The paths through the handler -/

theorem FS.read_put (fs : FS) (name : String) (data : List Nat) :
    (fs.put name data).read name = some data := by
  simp [FS.read, FS.put]

theorem handle_put_missing (conf : Config) (env : Env) (fs : FS) (r : Request)
    (hm : r.Method = "PUT") (hv : Values r.Query "v" = []) :
    (handleRequest conf env fs r).resp.Code = 409 ∧
    (handleRequest conf env fs r).fs = fs ∧
    (handleRequest conf env fs r).calls = [] := by
  unfold handleRequest
  cases hq : r.QueryErr <;>
    simp [hm, hv, Outcome.logln, Outcome.Error, Response.Error]

theorem handle_put_rejected (conf : Config) (env : Env) (fs : FS) (r : Request)
    (v : String) (rest : List String)
    (hm : r.Method = "PUT") (hv : Values r.Query "v" = v :: rest)
    (hne : v ≠ macString conf (fileStorePath conf r) r.ContentLength) :
    (handleRequest conf env fs r).resp.Code = 403 ∧
    (handleRequest conf env fs r).fs = fs ∧
    (handleRequest conf env fs r).calls = [] := by
  have he : hmac.Equal (bytes (macString conf (fileStorePath conf r) r.ContentLength)) (bytes v)
      = false := by
    rw [Bool.eq_false_iff, ne_eq, Equal_bytes_iff]
    exact fun h => hne h.symm
  unfold handleRequest
  cases hq : r.QueryErr <;>
    simp [hm, hv, he, Outcome.logln, Outcome.Error, Response.Error, Outcome.println]

theorem mkdir_error_create_error (env : Env) (fs : FS) (name : String)
    (h : (os.MkdirAll env fs (filepath.Dir name)).2 ≠ none) :
    (os.Create env (os.MkdirAll env fs (filepath.Dir name)).1 name).2 ≠ none := by
  unfold os.MkdirAll at h ⊢
  unfold os.Create
  by_cases hd : filepath.Dir name ∈ fs.dirs
  · simp [hd] at h
  · cases hk : env.mkdirAllErr with
    | none => simp [hd, hk] at h
    | some err => simp [hd, hk]

theorem handle_put_accepted (conf : Config) (env : Env) (fs : FS) (r : Request)
    (v : String) (rest : List String)
    (hm : r.Method = "PUT") (hv : Values r.Query "v" = v :: rest)
    (heq : v = macString conf (fileStorePath conf r) r.ContentLength) :
    ∃ e1 e2, (handleRequest conf env fs r).calls =
        ⟨Op.mkdirAll, filepath.Dir (conf.Storedir ++ fileStorePath conf r), e1⟩ ::
        ⟨Op.create, conf.Storedir ++ fileStorePath conf r, e2⟩ ::
        (match e2 with
          | some _ => []
          | none => [⟨Op.copy, conf.Storedir ++ fileStorePath conf r,
              env.copyErr.map Prod.snd⟩]) ∧
      (e1 ≠ none → e2 ≠ none) ∧
      (e2 ≠ none ∨ env.copyErr ≠ none →
        (handleRequest conf env fs r).resp.Code = 409 ∧
        (handleRequest conf env fs r).resp.Body = bytes "409 Conflict\n") ∧
      (e2 = none → env.copyErr = none →
        (handleRequest conf env fs r).resp.Code = 200 ∧
        (handleRequest conf env fs r).resp.Body = [] ∧
        (handleRequest conf env fs r).fs.read (conf.Storedir ++ fileStorePath conf r)
          = some r.Body) := by
  have he : hmac.Equal (bytes (macString conf (fileStorePath conf r) r.ContentLength)) (bytes v)
      = true := by
    rw [Equal_bytes_iff]
    exact heq.symm
  refine ⟨(os.MkdirAll env fs (filepath.Dir (conf.Storedir ++ fileStorePath conf r))).2,
    (os.Create env (os.MkdirAll env fs (filepath.Dir (conf.Storedir ++ fileStorePath conf r))).1
      (conf.Storedir ++ fileStorePath conf r)).2, ?_, mkdir_error_create_error env fs _, ?_, ?_⟩ <;>
  unfold handleRequest <;>
  by_cases hd : filepath.Dir (conf.Storedir ++ fileStorePath conf r) ∈ fs.dirs <;>
  cases hq : r.QueryErr <;> cases hk : env.mkdirAllErr <;> cases hc : env.createErr <;>
  cases hw : env.copyErr <;>
    simp [hm, hv, he, hc, hw, hd, hk, Outcome.logln, Outcome.Error, Response.Error, Outcome.println,
      Outcome.MkdirAll, Outcome.Create, Outcome.Copy, os.MkdirAll, os.Create, os.Copy, copyError,
      FS.read_put, newResponse, Response.Set]

theorem handle_put_logs (conf : Config) (env : Env) (fs : FS) (r : Request)
    (v : String) (rest : List String)
    (hm : r.Method = "PUT") (hv : Values r.Query "v" = v :: rest) :
    ("Secret: " ++ conf.Secret) ∈ (handleRequest conf env fs r).log ∧
    ("MAC wanted: " ++ macString conf (fileStorePath conf r) r.ContentLength) ∈
      (handleRequest conf env fs r).log := by
  unfold handleRequest
  by_cases hd : filepath.Dir (conf.Storedir ++ fileStorePath conf r) ∈ fs.dirs <;>
  by_cases he : hmac.Equal (bytes (macString conf (fileStorePath conf r) r.ContentLength))
      (bytes v) = true <;>
  cases hq : r.QueryErr <;> cases hk : env.mkdirAllErr <;> cases hc : env.createErr <;>
  cases hw : env.copyErr <;>
    simp [hm, hv, he, hc, hw, hd, hk, Outcome.logln, Outcome.Error, Response.Error, Outcome.println,
      Outcome.MkdirAll, Outcome.Create, Outcome.Copy, os.MkdirAll, os.Create, os.Copy]

theorem handle_put_200 (conf : Config) (env : Env) (fs : FS) (r : Request)
    (hm : r.Method = "PUT") (h200 : (handleRequest conf env fs r).resp.Code = 200) :
    (handleRequest conf env fs r).fs.read (conf.Storedir ++ fileStorePath conf r)
      = some r.Body := by
  cases hq : Values r.Query "v" with
  | nil =>
    rw [(handle_put_missing conf env fs r hm hq).1] at h200
    exact absurd h200 (by decide)
  | cons v rest =>
    by_cases heq : v = macString conf (fileStorePath conf r) r.ContentLength
    · obtain ⟨e1, e2, -, -, h409, hok⟩ := handle_put_accepted conf env fs r v rest hm hq heq
      by_cases h2 : e2 = none
      · by_cases hw : env.copyErr = none
        · exact (hok h2 hw).2.2
        · rw [(h409 (Or.inr hw)).1] at h200
          exact absurd h200 (by decide)
      · rw [(h409 (Or.inl h2)).1] at h200
        exact absurd h200 (by decide)
    · rw [(handle_put_rejected conf env fs r v rest hm hq heq).1] at h200
      exact absurd h200 (by decide)

theorem handle_head (conf : Config) (env : Env) (fs : FS) (r : Request)
    (hm : r.Method = "HEAD") :
    (handleRequest conf env fs r).fs = fs ∧
    (handleRequest conf env fs r).calls = [] ∧
    (∀ err, os.Stat env fs (conf.Storedir ++ fileStorePath conf r) = .error err →
      (handleRequest conf env fs r).resp.Code = 404) ∧
    (∀ size, os.Stat env fs (conf.Storedir ++ fileStorePath conf r) = .ok size →
      (handleRequest conf env fs r).resp.Code = 200 ∧
      (handleRequest conf env fs r).resp.Get "Content-Length" = some (strconv.FormatInt size) ∧
      (handleRequest conf env fs r).resp.Body = []) := by
  unfold handleRequest
  cases hq : r.QueryErr <;>
  cases hs : os.Stat env fs (conf.Storedir ++ fileStorePath conf r) <;>
    simp [hm, hs, Outcome.logln, Outcome.Error, Response.Error, Response.Set, Response.Get,
      newResponse]

theorem handle_get (conf : Config) (env : Env) (fs : FS) (r : Request)
    (hm : r.Method = "GET") :
    (handleRequest conf env fs r).fs = fs ∧
    (handleRequest conf env fs r).calls = [] := by
  unfold handleRequest
  cases hq : r.QueryErr <;> simp [hm, Outcome.logln]

theorem handle_other (conf : Config) (env : Env) (fs : FS) (r : Request)
    (h1 : r.Method ≠ "PUT") (h2 : r.Method ≠ "HEAD") (h3 : r.Method ≠ "GET") :
    (handleRequest conf env fs r).resp.Code = 405 ∧
    (handleRequest conf env fs r).fs = fs ∧
    (handleRequest conf env fs r).calls = [] := by
  unfold handleRequest
  cases hq : r.QueryErr <;> simp [h1, h2, h3, Outcome.logln, Outcome.Error, Response.Error]

theorem handle_log_secret_free (conf : Config) (secret : String) (env : Env) (fs : FS)
    (r : Request) (h : ¬ (r.Method = "PUT" ∧ Values r.Query "v" ≠ [])) :
    (handleRequest { conf with Secret := secret } env fs r).log = (handleRequest conf env fs r).log := by
  unfold handleRequest
  by_cases h1 : r.Method = "PUT"
  · have hv : Values r.Query "v" = [] := by
      by_contra hne
      exact h ⟨h1, hne⟩
    cases hq : r.QueryErr <;> simp [h1, hv, Outcome.logln, Outcome.Error]
  · by_cases h2 : r.Method = "HEAD"
    · cases hq : r.QueryErr <;>
      cases hs : os.Stat env fs (conf.Storedir ++ fileStorePath conf r) <;>
        simp [h2, hs, fileStorePath, Outcome.logln, Outcome.Error]
    · by_cases h3 : r.Method = "GET"
      · cases hq : r.QueryErr <;> simp [h3, Outcome.logln]
      · cases hq : r.QueryErr <;> simp [h1, h2, h3, Outcome.logln, Outcome.Error]

/-! ## Checks of the model against published values -/

/-- SHA-256 of `abc` (FIPS 180-4, appendix B.1). -/
theorem sha256_abc :
    hex.EncodeToString (sha256.Sum256 (bytes "abc")) =
      "ba7816bf8f01cfea414140de5dae2223b00361a396177a9cb410ff61f20015ad" := by
  decide

/-- HMAC-SHA256 test case 2 of RFC 4231. -/
theorem hmac_rfc4231_case2 :
    hex.EncodeToString
        (hmac.Sum (hmac.Write (hmac.New (bytes "Jefe")) (bytes "what do ya want for nothing?"))) =
      "5bdcc146bf60754e6a042426089575c75a003f089d2739839dec58b964ec3843" := by
  decide

/-- The MAC of the scenario of the specification: secret `s3cr3t`, path
`thomas/abc/catmetal.jpg`, content length 12345. -/
theorem macString_scenario :
    macString exampleConf "thomas/abc/catmetal.jpg" 12345 =
      "2c178442cb577a30af92c67e35dcf6cebbad4a58fe2d4397e17ca2a376e66d16" := by
  decide

/-! ## The claims -/

/-- Claim C1: for every secret, relative path `p` and declared content length `n`, the MAC
that `handleRequest` computes for a PUT (lines 72-77) is the lowercase hex encoding of
HMAC-SHA256 keyed with the raw bytes of the secret over the bytes of `p ++ " " ++ decimal n`;
for `thomas/abc/catmetal.jpg` and 12345 that message is `thomas/abc/catmetal.jpg 12345`; and
every PUT carrying a `v` parameter logs this value, for its derived path and its declared
length, as the MAC wanted. -/
theorem expected_signature_is_hex_hmac_sha256 (conf : Config) (p : String) (n : Int) :
    macString conf p n = specSignature conf.Secret p n ∧
    "thomas/abc/catmetal.jpg" ++ " " ++ strconv.FormatInt 12345 = "thomas/abc/catmetal.jpg 12345" ∧
    ∀ (env : Env) (fs : FS) (r : Request), r.Method = "PUT" → Values r.Query "v" ≠ [] →
      ("MAC wanted: " ++ specSignature conf.Secret (fileStorePath conf r) r.ContentLength) ∈
        (handleRequest conf env fs r).log := by
  refine ⟨macString_eq conf p n, by decide, ?_⟩
  intro env fs r hm hv
  cases hq : Values r.Query "v" with
  | nil => exact absurd hq hv
  | cons v rest =>
    rw [← macString_eq]
    exact (handle_put_logs conf env fs r v rest hm hq).2

/-- Witness of C1: the PUT of `TestUploadInvalidMAC` logs the specified signature. -/
theorem expected_signature_is_hex_hmac_sha256_witness :
    ("MAC wanted: " ++
        specSignature exampleConf.Secret (fileStorePath exampleConf wrongPut) wrongPut.ContentLength) ∈
      (handleRequest exampleConf quietEnv emptyFS wrongPut).log :=
  (expected_signature_is_hex_hmac_sha256 exampleConf "" 0).2.2 quietEnv emptyFS wrongPut
    (by decide) (by decide)

/-- Claim C2: for every request and every filesystem, if `handleRequest` issues a mutating
filesystem call (directory creation, file creation or truncation, write) or leaves the
filesystem different, then the method is PUT and the first value of the `v` parameter is the
MAC computed from the derived path and the declared Content-Length; every other request issues
no such call and leaves the filesystem as it was. -/
theorem filesystem_touched_only_when_verified (conf : Config) (env : Env) (fs : FS)
    (r : Request) :
    ((handleRequest conf env fs r).calls ≠ [] ∨ (handleRequest conf env fs r).fs ≠ fs →
      r.Method = "PUT" ∧
      (Values r.Query "v").head? =
        some (macString conf (fileStorePath conf r) r.ContentLength)) ∧
    (¬ (r.Method = "PUT" ∧
        (Values r.Query "v").head? =
          some (macString conf (fileStorePath conf r) r.ContentLength)) →
      (handleRequest conf env fs r).fs = fs ∧ (handleRequest conf env fs r).calls = []) := by
  have key : ¬ (r.Method = "PUT" ∧
        (Values r.Query "v").head? =
          some (macString conf (fileStorePath conf r) r.ContentLength)) →
      (handleRequest conf env fs r).fs = fs ∧ (handleRequest conf env fs r).calls = [] := by
    intro hn
    by_cases h1 : r.Method = "PUT"
    · cases hq : Values r.Query "v" with
      | nil => exact (handle_put_missing conf env fs r h1 hq).2
      | cons v rest =>
        have hne : v ≠ macString conf (fileStorePath conf r) r.ContentLength := by
          intro h
          exact hn ⟨h1, by rw [hq, h]; rfl⟩
        exact (handle_put_rejected conf env fs r v rest h1 hq hne).2
    · by_cases h2 : r.Method = "HEAD"
      · exact ⟨(handle_head conf env fs r h2).1, (handle_head conf env fs r h2).2.1⟩
      · by_cases h3 : r.Method = "GET"
        · exact handle_get conf env fs r h3
        · exact (handle_other conf env fs r h1 h2 h3).2
  refine ⟨?_, key⟩
  intro h
  by_contra hn
  obtain ⟨hfs, hcalls⟩ := key hn
  rcases h with h | h
  · exact h hcalls
  · exact h hfs

/-- Witness of C2: the signed PUT touches the filesystem and is verified; the PUT with the
MAC `abc` is not verified and touches nothing. -/
theorem filesystem_touched_only_when_verified_witness :
    (signedPut.Method = "PUT" ∧
      (Values signedPut.Query "v").head? =
        some (macString exampleConf (fileStorePath exampleConf signedPut) signedPut.ContentLength)) ∧
    ((handleRequest exampleConf quietEnv emptyFS wrongPut).fs = emptyFS ∧
      (handleRequest exampleConf quietEnv emptyFS wrongPut).calls = []) :=
  ⟨(filesystem_touched_only_when_verified exampleConf quietEnv emptyFS signedPut).1
      (Or.inl (by decide)),
    (filesystem_touched_only_when_verified exampleConf quietEnv emptyFS wrongPut).2 (by decide)⟩

/-- Claim C3: for every PUT request, if the query has no `v` parameter the response status is
409, whatever the body, the path and the content length; if a `v` parameter is present and its
first value differs from the MAC the handler computes, the response status is 403. -/
theorem put_without_mac_409_wrong_mac_403 (conf : Config) (env : Env) (fs : FS) (r : Request)
    (hm : r.Method = "PUT") :
    (Values r.Query "v" = [] → (handleRequest conf env fs r).resp.Code = 409) ∧
    (∀ v, (Values r.Query "v").head? = some v →
      v ≠ macString conf (fileStorePath conf r) r.ContentLength →
      (handleRequest conf env fs r).resp.Code = 403) := by
  refine ⟨fun hv => (handle_put_missing conf env fs r hm hv).1, ?_⟩
  intro v hv hne
  cases hq : Values r.Query "v" with
  | nil => rw [hq] at hv; simp at hv
  | cons w rest =>
    rw [hq] at hv
    simp only [List.head?_cons, Option.some.injEq] at hv
    subst hv
    exact (handle_put_rejected conf env fs r w rest hm hq hne).1

/-- Witness of C3: `TestUploadMissingMAC` gives 409 and `TestUploadInvalidMAC` gives 403. -/
theorem put_without_mac_409_wrong_mac_403_witness :
    (handleRequest exampleConf quietEnv emptyFS unsignedPut).resp.Code = 409 ∧
    (handleRequest exampleConf quietEnv emptyFS wrongPut).resp.Code = 403 :=
  ⟨(put_without_mac_409_wrong_mac_403 exampleConf quietEnv emptyFS unsignedPut (by decide)).1
      (by decide),
    (put_without_mac_409_wrong_mac_403 exampleConf quietEnv emptyFS wrongPut (by decide)).2 "abc"
      (by decide) (by decide)⟩

/-- Counterexample to C4 as stated: a PUT sent with chunked transfer encoding declares the
length -1; with the MAC for that length it is verified, every filesystem call succeeds, and the
file then holds the three bytes of the body, not a number of bytes equal to the declared
length. -/
theorem chunked_put_stores_more_than_declared :
    chunkedPut.Method = "PUT" ∧
    (Values chunkedPut.Query "v").head? =
      some (macString exampleConf (fileStorePath exampleConf chunkedPut) chunkedPut.ContentLength) ∧
    (∀ c ∈ (handleRequest exampleConf quietEnv emptyFS chunkedPut).calls, c.err = none) ∧
    (handleRequest exampleConf quietEnv emptyFS chunkedPut).resp.Code = 200 ∧
    (handleRequest exampleConf quietEnv emptyFS chunkedPut).fs.read
      (exampleConf.Storedir ++ fileStorePath exampleConf chunkedPut) = some [1, 2, 3] ∧
    ¬ ∃ data, (handleRequest exampleConf quietEnv emptyFS chunkedPut).fs.read
        (exampleConf.Storedir ++ fileStorePath exampleConf chunkedPut) = some data ∧
      (data.length : Int) = chunkedPut.ContentLength := by
  have hread : (handleRequest exampleConf quietEnv emptyFS chunkedPut).fs.read
      (exampleConf.Storedir ++ fileStorePath exampleConf chunkedPut) = some [1, 2, 3] := by
    decide
  refine ⟨by decide, by decide, by decide, by decide, hread, ?_⟩
  rintro ⟨data, hd, hl⟩
  rw [hread] at hd
  cases hd
  revert hl
  decide

/-- Claim C4, amended: for every PUT request whose first `v` value is the MAC computed from the
derived path and the declared length `n`, and every prior filesystem, when the file creation
and the body copy of the run succeed the response status is 200 and afterwards the file at
`Storedir ++ fileStorePath` holds exactly the bytes of the request body, whatever it held
before; it holds exactly `n` bytes whenever the body has the declared length. -/
theorem verified_put_stores_body (conf : Config) (env : Env) (fs : FS) (r : Request)
    (hm : r.Method = "PUT")
    (hv : (Values r.Query "v").head? =
      some (macString conf (fileStorePath conf r) r.ContentLength))
    (hok : ∀ c ∈ (handleRequest conf env fs r).calls, c.op ≠ Op.mkdirAll → c.err = none) :
    (handleRequest conf env fs r).resp.Code = 200 ∧
    (handleRequest conf env fs r).fs.read (conf.Storedir ++ fileStorePath conf r) = some r.Body ∧
    ((r.Body.length : Int) = r.ContentLength →
      ∃ data, (handleRequest conf env fs r).fs.read (conf.Storedir ++ fileStorePath conf r)
          = some data ∧
        (data.length : Int) = r.ContentLength ∧ data = r.Body) := by
  cases hq : Values r.Query "v" with
  | nil => rw [hq] at hv; simp at hv
  | cons w rest =>
    rw [hq] at hv
    simp only [List.head?_cons, Option.some.injEq] at hv
    obtain ⟨e1, e2, hcalls, -, -, h200⟩ := handle_put_accepted conf env fs r w rest hm hq hv
    rw [hcalls] at hok
    cases e2 with
    | some err =>
      have := hok ⟨Op.create, conf.Storedir ++ fileStorePath conf r, some err⟩ (by simp)
        (by simp)
      simp at this
    | none =>
      have hcopy := hok ⟨Op.copy, conf.Storedir ++ fileStorePath conf r,
        env.copyErr.map Prod.snd⟩ (by simp) (by simp)
      have hw : env.copyErr = none := by simpa using hcopy
      obtain ⟨hcode, -, hread⟩ := h200 rfl hw
      exact ⟨hcode, hread, fun hl => ⟨r.Body, hread, hl, rfl⟩⟩

/-- Witness of C4 (amended): the signed PUT of three bytes onto a filesystem that already
holds five bytes at the target. -/
theorem verified_put_stores_body_witness :
    usedFS.read "/data/thomas/abc/catmetal.jpg" = some [9, 9, 9, 9, 9] ∧
    (handleRequest exampleConf quietEnv usedFS signedPut).resp.Code = 200 ∧
    (handleRequest exampleConf quietEnv usedFS signedPut).fs.read
      (exampleConf.Storedir ++ fileStorePath exampleConf signedPut) = some signedPut.Body :=
  ⟨by decide,
    (verified_put_stores_body exampleConf quietEnv usedFS signedPut (by decide) (by decide)
      (by decide)).1,
    (verified_put_stores_body exampleConf quietEnv usedFS signedPut (by decide) (by decide)
      (by decide)).2.1⟩

/-- Claim C5, the code at a failing input: with the upload prefix `upload/`, the URL path
`/upload/alice/x.jpg` is `/`, the prefix and the remainder `alice/x.jpg`, yet the path the
handler derives is `ice/x.jpg`: `strings.TrimLeft` removes every leading character that
occurs in the prefix, not the prefix.  On the path of the tests the two agree. -/
theorem trimleft_removes_more_than_the_prefix :
    aliceRequest.Path = "/" ++ exampleConf.UploadSubDir ++ "alice/x.jpg" ∧
    fileStorePath exampleConf aliceRequest = "ice/x.jpg" ∧
    fileStorePath exampleConf aliceRequest ≠ "alice/x.jpg" ∧
    signedPut.Path = "/" ++ exampleConf.UploadSubDir ++ "thomas/abc/catmetal.jpg" ∧
    fileStorePath exampleConf signedPut = "thomas/abc/catmetal.jpg" := by
  decide

/-- Counterexample to C6 as stated: the PUT of `TestUploadInvalidMAC` writes the log line
`Secret: s3cr3t`, which contains the shared secret. -/
theorem put_logs_the_secret :
    "Secret: s3cr3t" ∈ (handleRequest exampleConf quietEnv emptyFS wrongPut).log ∧
    exampleConf.Secret.data <:+: "Secret: s3cr3t".data :=
  ⟨(handle_put_logs exampleConf quietEnv emptyFS wrongPut "abc" [] (by decide) (by decide)).1,
    ⟨"Secret: ".data, [], by decide⟩⟩

/-- Claim C6, amended: a PUT request that carries a `v` parameter writes the log line
`Secret: ` followed by the shared secret; for every other request the log lines the handler
writes are the same whatever the secret is, so they disclose nothing of it. -/
theorem secret_logged_only_for_put_with_mac (conf : Config) (secret : String) (env : Env)
    (fs : FS) (r : Request) :
    (r.Method = "PUT" → Values r.Query "v" ≠ [] →
      ("Secret: " ++ conf.Secret) ∈ (handleRequest conf env fs r).log) ∧
    (¬ (r.Method = "PUT" ∧ Values r.Query "v" ≠ []) →
      (handleRequest { conf with Secret := secret } env fs r).log
        = (handleRequest conf env fs r).log) := by
  refine ⟨?_, handle_log_secret_free conf secret env fs r⟩
  intro hm hv
  cases hq : Values r.Query "v" with
  | nil => exact absurd hq hv
  | cons v rest => exact (handle_put_logs conf env fs r v rest hm hq).1

/-- Witness of C6 (amended): the PUT with a MAC logs the secret; the log of the PUT without
a MAC is the same under another secret. -/
theorem secret_logged_only_for_put_with_mac_witness :
    ("Secret: " ++ exampleConf.Secret) ∈ (handleRequest exampleConf quietEnv emptyFS wrongPut).log ∧
    (handleRequest { exampleConf with Secret := "other" } quietEnv emptyFS unsignedPut).log
      = (handleRequest exampleConf quietEnv emptyFS unsignedPut).log :=
  ⟨(secret_logged_only_for_put_with_mac exampleConf "other" quietEnv emptyFS wrongPut).1
      (by decide) (by decide),
    (secret_logged_only_for_put_with_mac exampleConf "other" quietEnv emptyFS unsignedPut).2
      (by decide)⟩

/-- Claim C7: for every PUT request whose first `v` value is the MAC the handler computes, if
one of the filesystem calls of the run (directory creation, file creation, body copy) fails,
the response status is 409 and the response body is the line `409 Conflict` and nothing else,
whatever the error says.  (The handler discards the result of `os.MkdirAll`; when that call
fails the directory is missing, `os.Create` fails in turn, and that is what is reported.) -/
theorem storage_failure_409_generic_body (conf : Config) (env : Env) (fs : FS) (r : Request)
    (hm : r.Method = "PUT")
    (hv : (Values r.Query "v").head? =
      some (macString conf (fileStorePath conf r) r.ContentLength))
    (hf : ∃ c ∈ (handleRequest conf env fs r).calls, c.err ≠ none) :
    (handleRequest conf env fs r).resp.Code = 409 ∧
    (handleRequest conf env fs r).resp.Body = bytes "409 Conflict\n" := by
  cases hq : Values r.Query "v" with
  | nil => rw [hq] at hv; simp at hv
  | cons w rest =>
    rw [hq] at hv
    simp only [List.head?_cons, Option.some.injEq] at hv
    obtain ⟨e1, e2, hcalls, himp, h409, -⟩ := handle_put_accepted conf env fs r w rest hm hq hv
    by_cases h2 : e2 = none
    · by_cases hw : env.copyErr = none
      · exfalso
        obtain ⟨c, hc, hne⟩ := hf
        rw [hcalls, h2, hw] at hc
        simp only [Option.map_none', List.mem_cons, List.mem_singleton, List.not_mem_nil,
          or_false] at hc
        rcases hc with hc | hc | hc
        · rw [hc] at hne
          exact himp hne h2
        · rw [hc] at hne
          exact hne rfl
        · rw [hc] at hne
          exact hne rfl
      · exact h409 (Or.inr hw)
    · exact h409 (Or.inl h2)

/-- Witness of C7: the signed PUT when the directory cannot be made, and when the file cannot
be created. -/
theorem storage_failure_409_generic_body_witness :
    ((handleRequest exampleConf mkdirFailEnv emptyFS signedPut).resp.Code = 409 ∧
      (handleRequest exampleConf mkdirFailEnv emptyFS signedPut).resp.Body
        = bytes "409 Conflict\n") ∧
    ((handleRequest exampleConf createFailEnv emptyFS signedPut).resp.Code = 409 ∧
      (handleRequest exampleConf createFailEnv emptyFS signedPut).resp.Body
        = bytes "409 Conflict\n") :=
  ⟨storage_failure_409_generic_body exampleConf mkdirFailEnv emptyFS signedPut (by decide)
      (by decide) (by decide),
    storage_failure_409_generic_body exampleConf createFailEnv emptyFS signedPut (by decide)
      (by decide) (by decide)⟩

/-- Claim C8: for every request whose method is none of PUT, HEAD and GET, the response
status is 405, no mutating filesystem call is issued and the filesystem is unchanged,
whatever the path, the query and the body. -/
theorem other_method_405_no_effect (conf : Config) (env : Env) (fs : FS) (r : Request)
    (h1 : r.Method ≠ "PUT") (h2 : r.Method ≠ "HEAD") (h3 : r.Method ≠ "GET") :
    (handleRequest conf env fs r).resp.Code = 405 ∧
    (handleRequest conf env fs r).fs = fs ∧
    (handleRequest conf env fs r).calls = [] :=
  handle_other conf env fs r h1 h2 h3

/-- Witness of C8: the POST of `TestUploadInvalidMethod`. -/
theorem other_method_405_no_effect_witness :
    (handleRequest exampleConf quietEnv usedFS postRequest).resp.Code = 405 ∧
    (handleRequest exampleConf quietEnv usedFS postRequest).fs = usedFS ∧
    (handleRequest exampleConf quietEnv usedFS postRequest).calls = [] :=
  other_method_405_no_effect exampleConf quietEnv usedFS postRequest (by decide) (by decide)
    (by decide)

/-- Claim C9: for every HEAD request (no signature is looked at): if `os.Stat` of the file at
`Storedir ++ fileStorePath` fails the response status is 404; otherwise the status is 200, the
Content-Length header is the decimal numeral of the size `os.Stat` reports, which for a file is
the number of its bytes, and the response body is empty; in particular, after a successful PUT
(one answered with 200) of a body of `n` bytes to the same path, the reported length is `n`. -/
theorem head_reports_file_size (conf : Config) (env : Env) (fs : FS) (r : Request)
    (hm : r.Method = "HEAD") :
    (∀ err, os.Stat env fs (conf.Storedir ++ fileStorePath conf r) = .error err →
      (handleRequest conf env fs r).resp.Code = 404) ∧
    (∀ size, os.Stat env fs (conf.Storedir ++ fileStorePath conf r) = .ok size →
      (handleRequest conf env fs r).resp.Code = 200 ∧
      (handleRequest conf env fs r).resp.Get "Content-Length" = some (strconv.FormatInt size) ∧
      (handleRequest conf env fs r).resp.Body = []) ∧
    (∀ data, env.statErr = none → fs.read (conf.Storedir ++ fileStorePath conf r) = some data →
      os.Stat env fs (conf.Storedir ++ fileStorePath conf r) = .ok (data.length : Int)) ∧
    (∀ (env0 : Env) (fs0 : FS) (put : Request), put.Method = "PUT" → put.Path = r.Path →
      (handleRequest conf env0 fs0 put).resp.Code = 200 → env.statErr = none →
      (handleRequest conf env (handleRequest conf env0 fs0 put).fs r).resp.Code = 200 ∧
      (handleRequest conf env (handleRequest conf env0 fs0 put).fs r).resp.Get "Content-Length"
        = some (strconv.FormatInt (put.Body.length : Int)) ∧
      (handleRequest conf env (handleRequest conf env0 fs0 put).fs r).resp.Body = []) := by
  have hstat : ∀ (g : FS) (data : List Nat), env.statErr = none →
      g.read (conf.Storedir ++ fileStorePath conf r) = some data →
      os.Stat env g (conf.Storedir ++ fileStorePath conf r) = .ok (data.length : Int) := by
    intro g data he hr
    simp [os.Stat, he, hr]
  refine ⟨(handle_head conf env fs r hm).2.2.1, (handle_head conf env fs r hm).2.2.2,
    fun data he hr => hstat fs data he hr, ?_⟩
  intro env0 fs0 put hp hpath h200 he
  have hsame : fileStorePath conf put = fileStorePath conf r := by
    simp [fileStorePath, hpath]
  have hread := handle_put_200 conf env0 fs0 put hp h200
  rw [hsame] at hread
  exact (handle_head conf env _ r hm).2.2.2 _ (hstat _ _ he hread)

/-- Witness of C9: HEAD on the empty filesystem gives 404; HEAD after the signed PUT of three
bytes gives 200 with Content-Length 3 and an empty body. -/
theorem head_reports_file_size_witness :
    (handleRequest exampleConf quietEnv emptyFS headRequest).resp.Code = 404 ∧
    ((handleRequest exampleConf quietEnv
        (handleRequest exampleConf quietEnv emptyFS signedPut).fs headRequest).resp.Code = 200 ∧
      (handleRequest exampleConf quietEnv
        (handleRequest exampleConf quietEnv emptyFS signedPut).fs headRequest).resp.Get
          "Content-Length" = some (strconv.FormatInt ((signedPut.Body.length : Nat) : Int)) ∧
      (handleRequest exampleConf quietEnv
        (handleRequest exampleConf quietEnv emptyFS signedPut).fs headRequest).resp.Body = []) :=
  ⟨(head_reports_file_size exampleConf quietEnv emptyFS headRequest (by decide)).1
      "stat /data/thomas/abc/catmetal.jpg: no such file or directory" (by rfl),
    (head_reports_file_size exampleConf quietEnv emptyFS headRequest (by decide)).2.2.2
      quietEnv emptyFS signedPut (by decide) (by decide) (by decide) rfl⟩

/-- Claim C10: the message fed to the HMAC encodes the pair (path, length) without ambiguity:
for all strings `p`, `p'` (blanks allowed) and all integers `n`, `n'` (negative ones such as
the unknown length -1 included, so in particular all 64-bit ones), if
`p ++ " " ++ decimal n = p' ++ " " ++ decimal n'` then `p = p'` and `n = n'`. -/
theorem message_unambiguous (p p' : String) (n n' : Int)
    (h : p ++ " " ++ strconv.FormatInt n = p' ++ " " ++ strconv.FormatInt n') :
    p = p' ∧ n = n' := by
  have hd := congrArg String.data h
  rw [message_data, message_data] at hd
  obtain ⟨h1, h2⟩ :=
    split_at_last_space _ _ _ _ (FormatInt_no_space n) (FormatInt_no_space n') hd
  exact ⟨String.ext h1, FormatInt_inj (String.ext h2)⟩

/-- Witness of C10: a path with a blank and the unknown length -1. -/
theorem message_unambiguous_witness :
    "a b" ++ " " ++ strconv.FormatInt (-1) = "a b -1" ∧ ("a b" = "a b" ∧ (-1 : Int) = -1) :=
  ⟨by decide, message_unambiguous "a b" "a b" (-1) (-1) rfl⟩

end FilesUpload
